import Mathlib

/-
Verification of the `pubsub` package: a generic publish/subscribe registry.

The embedded code is `pubsub.go` (context-aware version):

  type PubSub[K comparable, T any] struct \x7b
      mu          sync.RWMutex
      subscribers map[K]map[chan T]struct\x7b\x7d
  \x7d

with operations New, Subscribe, Unsubscribe, Publish, PublishWithTimeout.

Modelling decisions:
- A Go map is embedded as an association list with at most one entry per
  key in well-formed states (`keysNodup`); lookup/insert/erase act on the
  first matching entry.
- A subscriber set `map[chan T]struct\x7b\x7d` is a duplicate-free list of
  channel identities (`Chan := Nat`); Go map iteration order is unspecified,
  which the list order represents abstractly.
- The message payload is opaque to the registry (never inspected), so it is
  not carried in the model; delivery is recorded as the list of channel
  identities that accepted the hand-off, in order.
- The Go `select \x7b case ch <- msg: ...; case <-ctx.Done(): ... \x7d` inside
  Publish is abstracted by an oracle `Ctx.outcome : Nat → SelectOutcome`
  giving, for the i-th hand-off attempt of the call, which select branch
  fires; `Ctx.cause` is the value `ctx.Err()` reports once done.
-/

namespace Pubsub

/-- Identity of a subscriber channel (`chan T` in Go). Channels are compared
by identity; the registry never inspects their payloads. -/
abbrev Chan := Nat

/-- The two errors `ctx.Err()` can return once a Go context is done:
`context.Canceled` and `context.DeadlineExceeded`. -/
inductive CtxErr where
  | canceled
  | deadlineExceeded
deriving DecidableEq, Repr

/-- Which branch of the `select` in Publish fires at a given hand-off
attempt: the channel send succeeds, or `ctx.Done()` is ready. -/
inductive SelectOutcome where
  | sent
  | ctxDone
deriving DecidableEq, Repr

/-- A Go context as Publish observes it: for the i-th hand-off attempt of
one Publish call, which select branch fires, and the value `ctx.Err()`
reports when the done branch is taken. -/
structure Ctx where
  outcome : Nat → SelectOutcome
  cause : CtxErr

/-- Go map read `m[k]`: value of the first entry for `k`, if any. -/
def mapLookup {K β : Type} [DecidableEq K] : List (K × β) → K → Option β
  | [], _ => none
  | (a, b) :: rest, k => if a = k then some b else mapLookup rest k

/-- Go map write `m[k] = v`: replace the first entry for `k`, or append. -/
def mapInsert {K β : Type} [DecidableEq K] : List (K × β) → K → β → List (K × β)
  | [], k, v => [(k, v)]
  | (a, b) :: rest, k, v =>
      if a = k then (a, v) :: rest else (a, b) :: mapInsert rest k v

/-- Go map `delete(m, k)`: remove the first entry for `k`, if any. -/
def mapErase {K β : Type} [DecidableEq K] : List (K × β) → K → List (K × β)
  | [], _ => []
  | (a, b) :: rest, k => if a = k then rest else (a, b) :: mapErase rest k

/-- The PubSub registry state: the `subscribers map[K]map[chan T]struct\x7b\x7d`
field. The RWMutex `mu` guards concurrent access and has no sequential
content, so it is not part of the state. -/
structure PubSub (K : Type) where
  subscribers : List (K × List Chan)
deriving DecidableEq, Repr

/-- `New()`: an empty registry. -/
def PubSub.New (K : Type) : PubSub K := ⟨[]⟩

/-- Loop body of `Subscribe` for one key: ensure a set exists for the key,
then insert `ch` into it (a Go set insert, hence idempotent). -/
def subscribeKey {K : Type} [DecidableEq K] (m : List (K × List Chan)) (key : K)
    (ch : Chan) : List (K × List Chan) :=
  match mapLookup m key with
  | none => mapInsert m key [ch]
  | some s => mapInsert m key (if ch ∈ s then s else s ++ [ch])

/-- `Subscribe(keys, ch)`: subscribe `ch` under every key in `keys`. -/
def PubSub.Subscribe {K : Type} [DecidableEq K] (ps : PubSub K) (keys : List K)
    (ch : Chan) : PubSub K :=
  ⟨keys.foldl (fun m key => subscribeKey m key ch) ps.subscribers⟩

/-- Go set `delete(subs, ch)`: remove the channel from a subscriber set. -/
def setDelete (s : List Chan) (ch : Chan) : List Chan :=
  s.filter (fun x => x ≠ ch)

/-- Loop body of `Unsubscribe` for one key: if the key is present, remove
`ch` from its set; if the set becomes empty, delete the key entry. -/
def unsubscribeKey {K : Type} [DecidableEq K] (m : List (K × List Chan)) (key : K)
    (ch : Chan) : List (K × List Chan) :=
  match mapLookup m key with
  | none => m
  | some s =>
      if setDelete s ch = [] then mapErase m key
      else mapInsert m key (setDelete s ch)

/-- `Unsubscribe(keys, ch)`: unsubscribe `ch` from every key in `keys`. -/
def PubSub.Unsubscribe {K : Type} [DecidableEq K] (ps : PubSub K) (keys : List K)
    (ch : Chan) : PubSub K :=
  ⟨keys.foldl (fun m key => unsubscribeKey m key ch) ps.subscribers⟩

/-- The fan-out loop of `Publish`: for each subscriber in turn, the select
either delivers (append to the delivered list, next attempt index) or the
context is done, returning the deliveries so far and `ctx.Err()`. -/
def publishLoop (c : Ctx) : List Chan → Nat → List Chan → List Chan × Option CtxErr
  | [], _, delivered => (delivered, none)
  | ch :: rest, i, delivered =>
      match c.outcome i with
      | SelectOutcome.sent => publishLoop c rest (i + 1) (delivered ++ [ch])
      | SelectOutcome.ctxDone => (delivered, some c.cause)

/-- `Publish(ctx, key, msg)`: look up the key's subscriber set; absent keys
return `(0, nil)` at once, otherwise run the fan-out loop. The result
carries the (unmodified) registry state, the list of channels delivered to
(whose length is the returned `delivered` count), and the error. -/
def PubSub.Publish {K : Type} [DecidableEq K] (ps : PubSub K) (c : Ctx) (key : K) :
    PubSub K × List Chan × Option CtxErr :=
  match mapLookup ps.subscribers key with
  | none => (ps, [], none)
  | some subs => (ps, publishLoop c subs 0 [])

/-- The context built by `context.WithTimeout(context.Background(), d)` as
Publish observes it: when its done branch fires, `ctx.Err()` reports
`DeadlineExceeded`. Which attempt the deadline interrupts is runtime
timing, abstracted by the outcome oracle. -/
def timeoutCtx (outcome : Nat → SelectOutcome) : Ctx :=
  ⟨outcome, CtxErr.deadlineExceeded⟩

/-- `PublishWithTimeout(key, msg, timeout)`: build a timeout context for
`timeout` and delegate to Publish. The duration influences behaviour only
through runtime timing, i.e. through the outcome oracle. -/
def PubSub.PublishWithTimeout {K : Type} [DecidableEq K] (ps : PubSub K) (key : K)
    (timeout : Nat) (outcome : Nat → SelectOutcome) :
    PubSub K × List Chan × Option CtxErr :=
  ps.Publish (timeoutCtx outcome) key

/-- Well-formedness of the map representation: one entry per key. -/
def keysNodup {K : Type} (ps : PubSub K) : Prop :=
  (ps.subscribers.map Prod.fst).Nodup

/-- The spec invariant: a key appears in the index only with a non-empty
subscriber set. -/
def setsNonempty {K : Type} (ps : PubSub K) : Prop :=
  ∀ p ∈ ps.subscribers, p.2 ≠ []

/-- Subscriber sets hold each endpoint at most once (Go set semantics). -/
def setsNodup {K : Type} (ps : PubSub K) : Prop :=
  ∀ p ∈ ps.subscribers, p.2.Nodup

/-- The number of endpoints subscribed to `key` (0 when the key is absent). -/
def subscriberCount {K : Type} [DecidableEq K] (ps : PubSub K) (key : K) : Nat :=
  match mapLookup ps.subscribers key with
  | none => 0
  | some s => s.length

/-- The set a key maps to after the Subscribe loop body, as a function of
what it mapped to before: a fresh singleton, or the old set with `ch`
set-inserted. -/
def insertRes (ch : Chan) : Option (List Chan) → List Chan
  | none => [ch]
  | some s => if ch ∈ s then s else s ++ [ch]

/-- The entry a key maps to after the Unsubscribe loop body, as a function
of what it mapped to before: absent stays absent; otherwise `ch` is removed
and the entry disappears when that empties the set. -/
def removeRes (ch : Chan) : Option (List Chan) → Option (List Chan)
  | none => none
  | some s => if setDelete s ch = [] then none else some (setDelete s ch)

/-- A fixture: a registry with channels 5 and 7 subscribed to key 0. -/
def psTwo : PubSub Nat := ((PubSub.New Nat).Subscribe [0] 5).Subscribe [0] 7

/-- An oracle under which every hand-off succeeds (cancellation never fires). -/
def sentAll : Nat → SelectOutcome := fun _ => SelectOutcome.sent

/-- A context that never fires. -/
def ctxAllSent : Ctx := ⟨sentAll, CtxErr.canceled⟩

/-- A context that delivers the first hand-off, then reports an elapsed
deadline at the second. -/
def cancelAfterOne : Ctx :=
  ⟨fun i => if i < 1 then SelectOutcome.sent else SelectOutcome.ctxDone,
    CtxErr.deadlineExceeded⟩

/-- An oracle under which the context is done at every hand-off attempt. -/
def ctxDoneAll : Nat → SelectOutcome := fun _ => SelectOutcome.ctxDone

/-- Looking a key up after a map write sees the written value at that key
and is unchanged elsewhere. -/
theorem mapLookup_mapInsert {K β : Type} [DecidableEq K] (m : List (K × β)) (k k' : K)
    (v : β) :
    mapLookup (mapInsert m k v) k' = if k = k' then some v else mapLookup m k' := by
  induction m with
  | nil => simp [mapInsert, mapLookup]
  | cons p rest ih =>
      obtain ⟨a, b⟩ := p
      by_cases hak : a = k
      · subst hak
        by_cases hak' : a = k' <;> simp [mapInsert, mapLookup, hak']
      · by_cases hak' : a = k'
        · subst hak'
          have hka : ¬k = a := fun h => hak h.symm
          simp [mapInsert, hak, mapLookup, hka]
        · simp [mapInsert, hak, mapLookup, hak', ih]

/-- Writing back the value a key already maps to leaves the map unchanged. -/
theorem mapInsert_self {K β : Type} [DecidableEq K] (m : List (K × β)) (k : K) (v : β)
    (h : mapLookup m k = some v) : mapInsert m k v = m := by
  induction m with
  | nil => simp [mapLookup] at h
  | cons p rest ih =>
      obtain ⟨a, b⟩ := p
      by_cases hak : a = k
      · subst hak
        simp [mapLookup] at h
        simp [mapInsert, h]
      · simp [mapLookup, hak] at h
        simp [mapInsert, hak, ih h]

/-- Erasing a key removes entries, never adds or reorders them. -/
theorem mapErase_sublist {K β : Type} [DecidableEq K] (m : List (K × β)) (k : K) :
    (mapErase m k).Sublist m := by
  induction m with
  | nil => simp [mapErase]
  | cons p rest ih =>
      obtain ⟨a, b⟩ := p
      by_cases hak : a = k
      · simp [mapErase, hak]
      · simpa [mapErase, hak] using ih.cons₂ (a, b)

/-- A key is absent from the map exactly when no entry carries it. -/
theorem mapLookup_eq_none_iff {K β : Type} [DecidableEq K] (m : List (K × β)) (k : K) :
    mapLookup m k = none ↔ k ∉ m.map Prod.fst := by
  induction m with
  | nil => simp [mapLookup]
  | cons p rest ih =>
      obtain ⟨a, b⟩ := p
      by_cases hak : a = k
      · subst hak
        simp [mapLookup]
      · have hka : ¬k = a := fun h => hak h.symm
        simp [mapLookup, hak, ih, hka]

/-- A successful lookup exhibits a map entry. -/
theorem mapLookup_mem {K β : Type} [DecidableEq K] {m : List (K × β)} {k : K} {v : β}
    (h : mapLookup m k = some v) : (k, v) ∈ m := by
  induction m with
  | nil => simp [mapLookup] at h
  | cons p rest ih =>
      obtain ⟨a, b⟩ := p
      by_cases hak : a = k
      · subst hak
        simp [mapLookup] at h
        simp [h]
      · simp [mapLookup, hak] at h
        simp [ih h]

/-- Keys present after a map write: the written key joins the existing ones. -/
theorem keys_mapInsert {K β : Type} [DecidableEq K] (m : List (K × β)) (k : K) (v : β) :
    (mapInsert m k v).map Prod.fst =
      if k ∈ m.map Prod.fst then m.map Prod.fst else m.map Prod.fst ++ [k] := by
  induction m with
  | nil => simp [mapInsert]
  | cons p rest ih =>
      obtain ⟨a, b⟩ := p
      by_cases hak : a = k
      · subst hak
        simp [mapInsert]
      · have hka : ¬k = a := fun h => hak h.symm
        by_cases hmem : k ∈ rest.map Prod.fst <;>
          simp [mapInsert, hak, hka, hmem, ih]

/-- A map write preserves distinctness of keys. -/
theorem keysNodup_mapInsert {K β : Type} [DecidableEq K] (m : List (K × β)) (k : K)
    (v : β) (h : (m.map Prod.fst).Nodup) : ((mapInsert m k v).map Prod.fst).Nodup := by
  rw [keys_mapInsert]
  by_cases hmem : k ∈ m.map Prod.fst
  · simp [hmem, h]
  · simp [hmem, List.nodup_append, h]

/-- Erasing a key after a lookup miss elsewhere: with distinct keys, erasure
removes exactly the named key from lookups. -/
theorem mapLookup_mapErase {K β : Type} [DecidableEq K] (m : List (K × β)) (k k' : K)
    (hnd : (m.map Prod.fst).Nodup) :
    mapLookup (mapErase m k) k' = if k = k' then none else mapLookup m k' := by
  induction m with
  | nil => simp [mapErase, mapLookup]
  | cons p rest ih =>
      obtain ⟨a, b⟩ := p
      have hnd' : (rest.map Prod.fst).Nodup := (List.nodup_cons.mp hnd).2
      have hha : a ∉ rest.map Prod.fst := (List.nodup_cons.mp hnd).1
      by_cases hak : a = k
      · subst hak
        by_cases hak' : a = k'
        · subst hak'
          simp [mapErase, (mapLookup_eq_none_iff rest a).mpr hha]
        · simp [mapErase, mapLookup, hak']
      · by_cases hak' : a = k'
        · subst hak'
          have hka : ¬k = a := fun h => hak h.symm
          simp [mapErase, hak, mapLookup, hka]
        · simp [mapErase, hak, mapLookup, hak', ih hnd']

/-- Membership after a map write comes from the old map or is the written
entry. -/
theorem mem_mapInsert {K β : Type} [DecidableEq K] {p : K × β} (m : List (K × β))
    (k : K) (v : β) (h : p ∈ mapInsert m k v) : p ∈ m ∨ p = (k, v) := by
  induction m with
  | nil => simp [mapInsert] at h; simp [h]
  | cons q rest ih =>
      obtain ⟨a, b⟩ := q
      by_cases hak : a = k
      · subst hak
        simp [mapInsert] at h
        rcases h with h | h
        · right; simp [h]
        · left; simp [h]
      · simp [mapInsert, hak] at h
        rcases h with h | h
        · left; simp [h]
        · rcases ih h with h1 | h1
          · left; simp [h1]
          · right; exact h1

/-- A fold that applies a property-preserving step preserves the property. -/
theorem foldl_preserves {α β : Type} (P : α → Prop) (f : α → β → α)
    (hf : ∀ a b, P a → P (f a b)) :
    ∀ (l : List β) (a : α), P a → P (l.foldl f a) := by
  intro l
  induction l with
  | nil => intro a ha; exact ha
  | cons x xs ih => intro a ha; exact ih (f a x) (hf a x ha)

/-- The Subscribe loop body is a map write of the set-inserted value. -/
theorem subscribeKey_eq {K : Type} [DecidableEq K] (m : List (K × List Chan)) (k : K)
    (ch : Chan) : subscribeKey m k ch = mapInsert m k (insertRes ch (mapLookup m k)) := by
  unfold subscribeKey insertRes
  cases mapLookup m k <;> rfl

/-- Lookups after the Subscribe loop body: the touched key gets the
set-inserted value, other keys are untouched. -/
theorem lookup_subscribeKey {K : Type} [DecidableEq K] (m : List (K × List Chan))
    (k k' : K) (ch : Chan) :
    mapLookup (subscribeKey m k ch) k' =
      if k = k' then some (insertRes ch (mapLookup m k)) else mapLookup m k' := by
  rw [subscribeKey_eq, mapLookup_mapInsert]

/-- The subscribed channel is in the set the Subscribe loop body stores. -/
theorem mem_insertRes (ch : Chan) (o : Option (List Chan)) : ch ∈ insertRes ch o := by
  unfold insertRes
  cases o with
  | none => simp
  | some s => by_cases h : ch ∈ s <;> simp [h]

/-- The Subscribe loop body preserves distinctness of keys. -/
theorem keysNodup_subscribeKey {K : Type} [DecidableEq K] (m : List (K × List Chan))
    (k : K) (ch : Chan) (hnd : (m.map Prod.fst).Nodup) :
    ((subscribeKey m k ch).map Prod.fst).Nodup := by
  rw [subscribeKey_eq]
  exact keysNodup_mapInsert m k _ hnd

/-- The Unsubscribe loop body preserves distinctness of keys. -/
theorem keysNodup_unsubscribeKey {K : Type} [DecidableEq K] (m : List (K × List Chan))
    (k : K) (ch : Chan) (hnd : (m.map Prod.fst).Nodup) :
    ((unsubscribeKey m k ch).map Prod.fst).Nodup := by
  unfold unsubscribeKey
  cases mapLookup m k with
  | none => exact hnd
  | some s =>
      show (List.map Prod.fst
        (if setDelete s ch = [] then mapErase m k else mapInsert m k (setDelete s ch))).Nodup
      by_cases h : setDelete s ch = []
      · rw [if_pos h]
        exact List.Nodup.sublist ((mapErase_sublist m k).map Prod.fst) hnd
      · rw [if_neg h]
        exact keysNodup_mapInsert m k _ hnd

/-- The channel just removed is not in the filtered set. -/
theorem setDelete_not_mem (s : List Chan) (ch : Chan) : ch ∉ setDelete s ch := by
  simp [setDelete]

/-- Removing a channel twice is the same as removing it once. -/
theorem setDelete_idem (s : List Chan) (ch : Chan) :
    setDelete (setDelete s ch) ch = setDelete s ch := by
  unfold setDelete
  apply List.filter_eq_self.mpr
  intro a ha
  exact (List.mem_filter.mp ha).2

/-- Removing a channel that is not in the set leaves the set unchanged. -/
theorem setDelete_of_not_mem (s : List Chan) (ch : Chan) (h : ch ∉ s) :
    setDelete s ch = s := by
  unfold setDelete
  apply List.filter_eq_self.mpr
  intro a ha
  simp only [ne_eq, decide_not, Bool.not_eq_eq_eq_not, Bool.not_true, decide_eq_false_iff_not]
  intro hac
  exact h (hac ▸ ha)

/-- The Unsubscribe loop body's per-key effect is idempotent. -/
theorem removeRes_idem (ch : Chan) (o : Option (List Chan)) :
    removeRes ch (removeRes ch o) = removeRes ch o := by
  cases o with
  | none => rfl
  | some s =>
      by_cases h : setDelete s ch = [] <;>
        simp [removeRes, h, setDelete_idem]

/-- Lookups after the Unsubscribe loop body: with distinct keys, the touched
key maps through `removeRes`, other keys are untouched. -/
theorem lookup_unsubscribeKey {K : Type} [DecidableEq K] (m : List (K × List Chan))
    (k k' : K) (ch : Chan) (hnd : (m.map Prod.fst).Nodup) :
    mapLookup (unsubscribeKey m k ch) k' =
      if k = k' then removeRes ch (mapLookup m k) else mapLookup m k' := by
  unfold unsubscribeKey
  cases hl : mapLookup m k with
  | none =>
      by_cases hk : k = k'
      · subst hk; simp [removeRes, hl]
      · simp [hk]
  | some s =>
      by_cases hde : setDelete s ch = []
      · simp [hde, removeRes, mapLookup_mapErase m k k' hnd]
      · simp [hde, removeRes, mapLookup_mapInsert]

/-- Lookups after a whole Unsubscribe fold: every key in the input list maps
through `removeRes`, every other key is untouched. -/
theorem lookup_unsubscribe_foldl {K : Type} [DecidableEq K] (ch : Chan) :
    ∀ (keys : List K) (m : List (K × List Chan)), (m.map Prod.fst).Nodup →
      ∀ k', mapLookup (keys.foldl (fun m key => unsubscribeKey m key ch) m) k' =
        if k' ∈ keys then removeRes ch (mapLookup m k') else mapLookup m k' := by
  intro keys
  induction keys with
  | nil => intro m hnd k'; simp
  | cons k rest ih =>
      intro m hnd k'
      have hnd1 := keysNodup_unsubscribeKey m k ch hnd
      rw [List.foldl_cons, ih (unsubscribeKey m k ch) hnd1 k',
        lookup_unsubscribeKey m k k' ch hnd]
      by_cases hmem : k' ∈ rest
      · by_cases hkk : k = k'
        · subst hkk
          simp [hmem, removeRes_idem]
        · simp [hmem, hkk]
      · by_cases hkk : k = k'
        · subst hkk
          simp [hmem]
        · have hk'k : ¬k' = k := fun h => hkk h.symm
          simp [hmem, hkk, hk'k]

/-- If the select delivers at every attempt, the fan-out loop delivers to
every subscriber in order and reports no error. -/
theorem publishLoop_all_sent (c : Ctx) (hc : ∀ i, c.outcome i = SelectOutcome.sent) :
    ∀ (subs : List Chan) (i : Nat) (acc : List Chan),
      publishLoop c subs i acc = (acc ++ subs, none) := by
  intro subs
  induction subs with
  | nil => intro i acc; simp [publishLoop]
  | cons ch rest ih =>
      intro i acc
      simp only [publishLoop, hc i, ih (i + 1) (acc ++ [ch])]
      simp

/-- If the select delivers at the first `k` attempts and the context is done
at attempt `k` (with a subscriber still pending), the loop stops with the
first `k` subscribers delivered and error `ctx.Err()`. -/
theorem publishLoop_cancel (c : Ctx) :
    ∀ (subs : List Chan) (k i : Nat) (acc : List Chan), k < subs.length →
      (∀ j, j < k → c.outcome (i + j) = SelectOutcome.sent) →
      c.outcome (i + k) = SelectOutcome.ctxDone →
      publishLoop c subs i acc = (acc ++ subs.take k, some c.cause) := by
  intro subs
  induction subs with
  | nil => intro k i acc hk; exact absurd hk (by simp)
  | cons ch rest ih =>
      intro k i acc hk hsent hdone
      cases k with
      | zero =>
          have h0 : c.outcome i = SelectOutcome.ctxDone := by simpa using hdone
          simp [publishLoop, h0]
      | succ n =>
          have h0 : c.outcome i = SelectOutcome.sent := by
            simpa using hsent 0 (Nat.succ_pos n)
          have hrest := ih n (i + 1) (acc ++ [ch])
            (by simpa using Nat.lt_of_succ_lt_succ hk)
            (fun j hj => by
              have := hsent (j + 1) (Nat.succ_lt_succ hj)
              simpa [Nat.add_assoc, Nat.add_comm 1 j] using this)
            (by
              have := hdone
              simpa [Nat.add_assoc, Nat.add_comm 1 n] using this)
          simp only [publishLoop, h0, hrest]
          simp

/-- Any error the fan-out loop reports is the context's `ctx.Err()` value. -/
theorem publishLoop_err_cause (c : Ctx) :
    ∀ (subs : List Chan) (i : Nat) (acc : List Chan) (e : CtxErr),
      (publishLoop c subs i acc).2 = some e → e = c.cause := by
  intro subs
  induction subs with
  | nil => intro i acc e h; simp [publishLoop] at h
  | cons ch rest ih =>
      intro i acc e h
      rw [publishLoop] at h
      cases hout : c.outcome i with
      | sent => rw [hout] at h; exact ih (i + 1) (acc ++ [ch]) e h
      | ctxDone => rw [hout] at h; simpa using h.symm

/-- The fan-out loop returns no error exactly when it delivered to its whole
input list; on an error the delivered count is strictly short. -/
theorem publishLoop_count (c : Ctx) :
    ∀ (subs : List Chan) (i : Nat) (acc : List Chan),
      ((publishLoop c subs i acc).2 = none →
        (publishLoop c subs i acc).1.length = acc.length + subs.length) ∧
      ((publishLoop c subs i acc).2 ≠ none →
        (publishLoop c subs i acc).1.length < acc.length + subs.length) := by
  intro subs
  induction subs with
  | nil => intro i acc; constructor <;> intro h <;> simp [publishLoop] at h ⊢
  | cons ch rest ih =>
      intro i acc
      cases hout : c.outcome i with
      | sent =>
          have hrec := ih (i + 1) (acc ++ [ch])
          constructor <;> intro h <;> simp only [publishLoop, hout] at h ⊢
          · have h1 := hrec.1 h
            simp only [List.length_append, List.length_cons, List.length_nil] at h1 ⊢
            omega
          · have h2 := hrec.2 h
            simp only [List.length_append, List.length_cons, List.length_nil] at h2 ⊢
            omega
      | ctxDone =>
          constructor <;> intro h <;> simp only [publishLoop, hout] at h ⊢
          · simp at h
          · simp only [List.length_cons]
            omega

/-- Claim C3: publishing to a key with no entry in the index returns
`(0, nil)` for every context, fired or not. -/
theorem publish_absent_key {K : Type} [DecidableEq K] (ps : PubSub K) (c : Ctx)
    (key : K) (h : mapLookup ps.subscribers key = none) :
    (ps.Publish c key).2.1.length = 0 ∧ (ps.Publish c key).2.2 = none := by
  simp [PubSub.Publish, h]

/-- Claim C3 witness: the empty registry with a context that has already
fired still gets `(0, nil)`. -/
theorem publish_absent_key_witness :
    mapLookup (PubSub.New Nat).subscribers 0 = none ∧
    (((PubSub.New Nat).Publish ⟨fun _ => SelectOutcome.ctxDone, CtxErr.canceled⟩ 0).2.1.length = 0 ∧
      ((PubSub.New Nat).Publish ⟨fun _ => SelectOutcome.ctxDone, CtxErr.canceled⟩ 0).2.2 = none) :=
  ⟨rfl, publish_absent_key (PubSub.New Nat) ⟨fun _ => SelectOutcome.ctxDone, CtxErr.canceled⟩ 0 rfl⟩

/-- Claim C1: for a key whose subscriber set holds `N` endpoints, each ready
to accept, and a cancellation that never fires, Publish delivers to all `N`
endpoints (count `N`, no error), each exactly once. -/
theorem publish_fanout_complete {K : Type} [DecidableEq K] (ps : PubSub K) (c : Ctx)
    (key : K) (subs : List Chan)
    (hsub : mapLookup ps.subscribers key = some subs) (hnd : subs.Nodup)
    (hc : ∀ i, c.outcome i = SelectOutcome.sent) :
    (ps.Publish c key).2.1.length = subs.length ∧
    (ps.Publish c key).2.2 = none ∧
    ∀ ch ∈ subs, (ps.Publish c key).2.1.count ch = 1 := by
  have hp : ps.Publish c key = (ps, subs, none) := by
    simp [PubSub.Publish, hsub, publishLoop_all_sent c hc subs 0 []]
  rw [hp]
  exact ⟨rfl, rfl, fun ch hch => List.count_eq_one_of_mem hnd hch⟩

/-- Claim C1 witness: with channels 5 and 7 subscribed to key 0 and no
cancellation, Publish returns count 2, no error, one delivery to each. -/
theorem publish_fanout_complete_witness :
    (psTwo.Publish ctxAllSent 0).2.1.length = 2 ∧
    (psTwo.Publish ctxAllSent 0).2.2 = none ∧
    (psTwo.Publish ctxAllSent 0).2.1.count 5 = 1 ∧
    (psTwo.Publish ctxAllSent 0).2.1.count 7 = 1 := by
  have h := publish_fanout_complete psTwo ctxAllSent 0 [5, 7] (by decide) (by decide)
    (fun i => rfl)
  exact ⟨h.1, h.2.1, h.2.2 5 (by decide), h.2.2 7 (by decide)⟩

/-- Claim C2: if the cancellation fires after exactly the first `k` of `N`
endpoints (k < N) have accepted, Publish returns count `k` with the
context's error cause, and no endpoint beyond the first `k` receives the
message in that call. -/
theorem publish_partial_cancel {K : Type} [DecidableEq K] (ps : PubSub K) (c : Ctx)
    (key : K) (subs : List Chan) (k : Nat)
    (hsub : mapLookup ps.subscribers key = some subs)
    (hnd : subs.Nodup) (hk : k < subs.length)
    (hsent : ∀ j, j < k → c.outcome j = SelectOutcome.sent)
    (hdone : c.outcome k = SelectOutcome.ctxDone) :
    (ps.Publish c key).2.1 = subs.take k ∧
    (ps.Publish c key).2.1.length = k ∧
    (ps.Publish c key).2.2 = some c.cause ∧
    ∀ ch ∈ subs.drop k, ch ∉ (ps.Publish c key).2.1 := by
  have hloop := publishLoop_cancel c subs k 0 [] hk
    (fun j hj => by simpa using hsent j hj) (by simpa using hdone)
  have hp : ps.Publish c key = (ps, subs.take k, some c.cause) := by
    simp [PubSub.Publish, hsub, hloop]
  rw [hp]
  refine ⟨rfl, ?_, rfl, ?_⟩
  · simp [List.length_take]
    omega
  · intro ch hchd hchm
    exact List.disjoint_take_drop hnd (Nat.le_refl k) hchm hchd

/-- Claim C2 witness: with channels 5 and 7 subscribed to key 0 and the
deadline elapsing after the first hand-off, Publish returns `(1,
DeadlineExceeded)`, delivering to 5 only and never to 7. -/
theorem publish_partial_cancel_witness :
    (psTwo.Publish cancelAfterOne 0).2.1 = [5] ∧
    (psTwo.Publish cancelAfterOne 0).2.1.length = 1 ∧
    (psTwo.Publish cancelAfterOne 0).2.2 = some CtxErr.deadlineExceeded ∧
    7 ∉ (psTwo.Publish cancelAfterOne 0).2.1 := by
  have h := publish_partial_cancel psTwo cancelAfterOne 0 [5, 7] 1 (by decide) (by decide)
    (by decide)
    (fun j hj => by
      have hj0 : j = 0 := by omega
      subst hj0; rfl)
    rfl
  exact ⟨h.1, h.2.1, h.2.2.1, h.2.2.2 7 (by decide)⟩

/-- Claim C9: Publish returns no error exactly when the delivered count
equals the key's subscriber count (0 for an absent key); equivalently, a
non-nil error is returned exactly when the count falls short. -/
theorem publish_err_iff_short {K : Type} [DecidableEq K] (ps : PubSub K) (c : Ctx)
    (key : K) (hnd : setsNodup ps) :
    ((ps.Publish c key).2.2 = none ↔
      (ps.Publish c key).2.1.length = subscriberCount ps key) ∧
    ((ps.Publish c key).2.2 ≠ none ↔
      (ps.Publish c key).2.1.length < subscriberCount ps key) := by
  cases hsub : mapLookup ps.subscribers key with
  | none => simp [PubSub.Publish, subscriberCount, hsub]
  | some subs =>
      have hp : ps.Publish c key = (ps, publishLoop c subs 0 []) := by
        simp [PubSub.Publish, hsub]
      rw [hp]
      simp only [subscriberCount, hsub]
      have hcount := publishLoop_count c subs 0 []
      rcases hres : publishLoop c subs 0 [] with ⟨d, e⟩
      rw [hres] at hcount
      simp only [List.length_nil, Nat.zero_add] at hcount
      cases e with
      | none =>
          have h1 := hcount.1 rfl
          simp only at h1
          simp [h1]
      | some err =>
          have h2 := hcount.2 (by simp)
          simp only at h2
          constructor
          · simp only
            constructor
            · intro h; exact absurd h (by simp)
            · intro h; omega
          · simp only
            constructor
            · intro _; exact h2
            · intro _; simp

/-- Claim C9 witness: on the two-subscriber fixture, the no-error result
coincides with delivering to the full subscriber count. -/
theorem publish_err_iff_short_witness :
    ((psTwo.Publish ctxAllSent 0).2.2 = none ↔
      (psTwo.Publish ctxAllSent 0).2.1.length = subscriberCount psTwo 0) ∧
    ((psTwo.Publish ctxAllSent 0).2.2 ≠ none ↔
      (psTwo.Publish ctxAllSent 0).2.1.length < subscriberCount psTwo 0) :=
  publish_err_iff_short psTwo ctxAllSent 0 (by unfold setsNodup; decide)

/-- Claim C7: PublishWithTimeout returns exactly what Publish returns on the
timeout context it builds, and any error it reports is DeadlineExceeded —
it has no behaviour beyond constructing the context and delegating. -/
theorem publishWithTimeout_delegates {K : Type} [DecidableEq K] (ps : PubSub K)
    (key : K) (d : Nat) (outcome : Nat → SelectOutcome) :
    ps.PublishWithTimeout key d outcome = ps.Publish (timeoutCtx outcome) key ∧
    ∀ e, (ps.PublishWithTimeout key d outcome).2.2 = some e →
      e = CtxErr.deadlineExceeded := by
  refine ⟨rfl, ?_⟩
  intro e he
  rw [PubSub.PublishWithTimeout] at he
  cases hsub : mapLookup ps.subscribers key with
  | none => simp [PubSub.Publish, hsub] at he
  | some subs =>
      have hp : ps.Publish (timeoutCtx outcome) key =
          (ps, publishLoop (timeoutCtx outcome) subs 0 []) := by
        simp [PubSub.Publish, hsub]
      rw [hp] at he
      exact publishLoop_err_cause (timeoutCtx outcome) subs 0 [] e he

/-- Claim C7 witness: with the done-everywhere oracle, PublishWithTimeout on
the fixture equals the delegated Publish, and its error is
DeadlineExceeded. -/
theorem publishWithTimeout_delegates_witness :
    psTwo.PublishWithTimeout 0 10 ctxDoneAll =
      psTwo.Publish (timeoutCtx ctxDoneAll) 0 ∧
    (psTwo.PublishWithTimeout 0 10 ctxDoneAll).2.2 = some CtxErr.deadlineExceeded := by
  have h := publishWithTimeout_delegates psTwo 0 10 ctxDoneAll
  exact ⟨h.1, by decide⟩

/-- Channels stored by the Subscribe loop body are never the empty set. -/
theorem subscribeKey_nonempty {K : Type} [DecidableEq K] (m : List (K × List Chan))
    (k : K) (ch : Chan) (h : ∀ p ∈ m, p.2 ≠ []) :
    ∀ p ∈ subscribeKey m k ch, p.2 ≠ [] := by
  intro p hp
  rw [subscribeKey_eq] at hp
  rcases mem_mapInsert _ _ _ hp with h1 | h1
  · exact h p h1
  · subst h1
    show insertRes ch (mapLookup m k) ≠ []
    intro hcontra
    exact (List.not_mem_nil ch) (hcontra ▸ mem_insertRes ch (mapLookup m k))

/-- The Unsubscribe loop body never leaves an empty set behind. -/
theorem unsubscribeKey_nonempty {K : Type} [DecidableEq K] (m : List (K × List Chan))
    (k : K) (ch : Chan) (h : ∀ p ∈ m, p.2 ≠ []) :
    ∀ p ∈ unsubscribeKey m k ch, p.2 ≠ [] := by
  intro p hp
  unfold unsubscribeKey at hp
  cases hl : mapLookup m k with
  | none => simp only [hl] at hp; exact h p hp
  | some s =>
      simp only [hl] at hp
      by_cases hde : setDelete s ch = []
      · rw [if_pos hde] at hp
        exact h p ((mapErase_sublist m k).subset hp)
      · rw [if_neg hde] at hp
        rcases mem_mapInsert _ _ _ hp with h1 | h1
        · exact h p h1
        · subst h1
          exact hde

/-- The Subscribe loop body applied twice with the same key and channel is
the Subscribe loop body applied once. -/
theorem subscribeKey_idem {K : Type} [DecidableEq K] (m : List (K × List Chan)) (k : K)
    (ch : Chan) : subscribeKey (subscribeKey m k ch) k ch = subscribeKey m k ch := by
  have h1 : mapLookup (subscribeKey m k ch) k = some (insertRes ch (mapLookup m k)) := by
    rw [lookup_subscribeKey]
    simp
  have h2 : insertRes ch (some (insertRes ch (mapLookup m k))) =
      insertRes ch (mapLookup m k) := by
    have hm := mem_insertRes ch (mapLookup m k)
    show (if ch ∈ insertRes ch (mapLookup m k) then insertRes ch (mapLookup m k)
      else insertRes ch (mapLookup m k) ++ [ch]) = insertRes ch (mapLookup m k)
    rw [if_pos hm]
  rw [subscribeKey_eq (subscribeKey m k ch) k ch, h1, h2]
  exact mapInsert_self _ k _ h1

/-- Claim C4: subscribing the same endpoint to the same key twice yields the
state of a single Subscribe (one entry for the endpoint), and one matching
Unsubscribe then removes the endpoint from that key entirely. -/
theorem subscribe_idempotent {K : Type} [DecidableEq K] (ps : PubSub K) (k : K)
    (ch : Chan) (hnd : keysNodup ps) :
    (ps.Subscribe [k] ch).Subscribe [k] ch = ps.Subscribe [k] ch ∧
    ∀ s, mapLookup (((ps.Subscribe [k] ch).Subscribe [k] ch).Unsubscribe [k] ch).subscribers
        k = some s → ch ∉ s := by
  have hdouble : (ps.Subscribe [k] ch).Subscribe [k] ch = ps.Subscribe [k] ch := by
    show (⟨subscribeKey (subscribeKey ps.subscribers k ch) k ch⟩ : PubSub K) =
      ⟨subscribeKey ps.subscribers k ch⟩
    rw [subscribeKey_idem]
  refine ⟨hdouble, ?_⟩
  intro s hs
  rw [hdouble] at hs
  have hnd1 : ((subscribeKey ps.subscribers k ch).map Prod.fst).Nodup :=
    keysNodup_subscribeKey _ k ch hnd
  have hs' : mapLookup (unsubscribeKey (subscribeKey ps.subscribers k ch) k ch) k =
      some s := hs
  rw [lookup_unsubscribeKey _ k k ch hnd1, if_pos rfl, lookup_subscribeKey, if_pos rfl]
    at hs'
  have hs2 : (if setDelete (insertRes ch (mapLookup ps.subscribers k)) ch = []
      then none
      else some (setDelete (insertRes ch (mapLookup ps.subscribers k)) ch)) = some s := hs'
  by_cases hde : setDelete (insertRes ch (mapLookup ps.subscribers k)) ch = []
  · rw [if_pos hde] at hs2
    exact absurd hs2 (by simp)
  · rw [if_neg hde] at hs2
    rw [← Option.some.inj hs2]
    exact setDelete_not_mem _ ch

/-- Claim C4 witness: on the two-subscriber fixture, a double Subscribe of
channel 5 under key 0 equals a single one, and one Unsubscribe leaves key
0's set without channel 5. -/
theorem subscribe_idempotent_witness :
    (psTwo.Subscribe [0] 5).Subscribe [0] 5 = psTwo.Subscribe [0] 5 ∧
    (5 : Chan) ∉ ([7] : List Chan) := by
  have h := subscribe_idempotent psTwo 0 5 (by unfold keysNodup; decide)
  exact ⟨h.1, h.2 [7] (by decide)⟩

/-- Claim C5: the invariant that every key in the index carries a non-empty
subscriber set holds for New and is preserved by every Subscribe and
Unsubscribe; and once the last subscriber of a key unsubscribes, the key is
absent and publishing to it returns `(0, nil)`. -/
theorem pubsub_invariants (K : Type) [DecidableEq K] :
    setsNonempty (PubSub.New K) ∧
    (∀ (ps : PubSub K) (keys : List K) (ch : Chan), setsNonempty ps →
      setsNonempty (ps.Subscribe keys ch)) ∧
    (∀ (ps : PubSub K) (keys : List K) (ch : Chan), setsNonempty ps →
      setsNonempty (ps.Unsubscribe keys ch)) ∧
    (∀ (ps : PubSub K) (k : K) (ch : Chan) (c : Ctx) (s : List Chan), keysNodup ps →
      mapLookup ps.subscribers k = some s → setDelete s ch = [] →
      mapLookup (ps.Unsubscribe [k] ch).subscribers k = none ∧
      ((ps.Unsubscribe [k] ch).Publish c k).2.1.length = 0 ∧
      ((ps.Unsubscribe [k] ch).Publish c k).2.2 = none) := by
  refine ⟨?_, ?_, ?_, ?_⟩
  · intro p hp
    simp [PubSub.New] at hp
  · intro ps keys ch h
    have h' : ∀ p ∈ ps.subscribers, p.2 ≠ [] := h
    exact foldl_preserves (fun m : List (K × List Chan) => ∀ p ∈ m, p.2 ≠ [])
      (fun m key => subscribeKey m key ch)
      (fun m key hm => subscribeKey_nonempty m key ch hm) keys ps.subscribers h'
  · intro ps keys ch h
    have h' : ∀ p ∈ ps.subscribers, p.2 ≠ [] := h
    exact foldl_preserves (fun m : List (K × List Chan) => ∀ p ∈ m, p.2 ≠ [])
      (fun m key => unsubscribeKey m key ch)
      (fun m key hm => unsubscribeKey_nonempty m key ch hm) keys ps.subscribers h'
  · intro ps k ch c s hnd hlook hdel
    have hl : mapLookup (ps.Unsubscribe [k] ch).subscribers k = none := by
      show mapLookup (unsubscribeKey ps.subscribers k ch) k = none
      rw [lookup_unsubscribeKey _ k k ch hnd, if_pos rfl, hlook]
      simp [removeRes, hdel]
    exact ⟨hl, by simp [PubSub.Publish, hl], by simp [PubSub.Publish, hl]⟩

/-- Claim C5 witness: subscribing channel 5 to key 0 and then removing it
erases the key, and a publish to it afterwards returns `(0, nil)`. -/
theorem pubsub_invariants_witness :
    mapLookup (((PubSub.New Nat).Subscribe [0] 5).Unsubscribe [0] 5).subscribers 0 =
      none ∧
    ((((PubSub.New Nat).Subscribe [0] 5).Unsubscribe [0] 5).Publish ctxAllSent 0).2.1.length
      = 0 ∧
    ((((PubSub.New Nat).Subscribe [0] 5).Unsubscribe [0] 5).Publish ctxAllSent 0).2.2 =
      none :=
  (pubsub_invariants Nat).2.2.2 ((PubSub.New Nat).Subscribe [0] 5) 0 5 ctxAllSent [5]
    (by unfold keysNodup; decide) (by decide) (by decide)

/-- Claim C6: Unsubscribe touches only the listed keys, sends each listed
key's entry through removal of the given endpoint (erasing the key when the
set empties), and is a silent no-op on a key whose set does not hold the
endpoint — the key keeps its exact subscriber set. -/
theorem unsubscribe_frame {K : Type} [DecidableEq K] (ps : PubSub K) (keys : List K)
    (ch : Chan) (hnd : keysNodup ps) (hne : setsNonempty ps) :
    (∀ k', k' ∉ keys →
      mapLookup (ps.Unsubscribe keys ch).subscribers k' = mapLookup ps.subscribers k') ∧
    (∀ k', k' ∈ keys →
      mapLookup (ps.Unsubscribe keys ch).subscribers k' =
        removeRes ch (mapLookup ps.subscribers k')) ∧
    (∀ k' s, mapLookup ps.subscribers k' = some s → ch ∉ s →
      mapLookup (ps.Unsubscribe keys ch).subscribers k' = some s) := by
  have hchar := lookup_unsubscribe_foldl ch keys ps.subscribers hnd
  have hfold : ∀ k', mapLookup (ps.Unsubscribe keys ch).subscribers k' =
      mapLookup (keys.foldl (fun m key => unsubscribeKey m key ch) ps.subscribers) k' :=
    fun _ => rfl
  refine ⟨?_, ?_, ?_⟩
  · intro k' hk'
    rw [hfold k', hchar k', if_neg hk']
  · intro k' hk'
    rw [hfold k', hchar k', if_pos hk']
  · intro k' s hlook hch
    have hsd : setDelete s ch = s := setDelete_of_not_mem s ch hch
    have hsne : s ≠ [] := hne (k', s) (mapLookup_mem hlook)
    by_cases hk' : k' ∈ keys
    · rw [hfold k', hchar k', if_pos hk', hlook]
      simp [removeRes, hsd, hsne]
    · rw [hfold k', hchar k', if_neg hk', hlook]

/-- Claim C6 witness: unsubscribing channel 9 (subscribed nowhere) from keys
0 and 1 of the fixture leaves key 2 untouched, maps key 0 through the
removal function, and keeps key 0's set exactly `[5, 7]`. -/
theorem unsubscribe_frame_witness :
    mapLookup (psTwo.Unsubscribe [0, 1] 9).subscribers 2 =
      mapLookup psTwo.subscribers 2 ∧
    mapLookup (psTwo.Unsubscribe [0, 1] 9).subscribers 0 =
      removeRes 9 (mapLookup psTwo.subscribers 0) ∧
    mapLookup (psTwo.Unsubscribe [0, 1] 9).subscribers 0 = some [5, 7] := by
  have h := unsubscribe_frame psTwo [0, 1] 9 (by unfold keysNodup; decide)
    (by unfold setsNonempty; decide)
  exact ⟨h.1 2 (by decide), h.2.1 0 (by decide), h.2.2 0 [5, 7] (by decide) (by decide)⟩

/-- Claim C10: Publish never mutates the registry — the index coming out of
any Publish call (complete, absent key, or cancelled partway) is the index
that went in. -/
theorem publish_preserves_state {K : Type} [DecidableEq K] (ps : PubSub K) (c : Ctx)
    (key : K) : (ps.Publish c key).1 = ps := by
  unfold PubSub.Publish
  cases mapLookup ps.subscribers key <;> rfl

end Pubsub
